import Mathlib

/-!
# Verification of the price-checker backend (`src/main.py`, active revision)

Shallow embedding of the request handlers of the price-tracking backend:
the ASIN extractor `extract_asin`, the `bulk_register`, `check_prices` and
`delete_product` endpoints, together with proofs of the behavioural claims
about them.

Modelling conventions:
* The products table is a list of `Row` values in insertion order; SQL
  `SELECT COUNT`/`DELETE ... WHERE` become `List.filter`-based functions.
* Python dicts are association lists in key-insertion order; overwriting a
  key keeps its position (`dictInsert`), lookup is `dictGet`.
* Python floats are modelled as `Rat`; `int(x)` is truncation towards zero.
* The Amazon gateway response is passed in as a parameter: `none` stands
  for a response with no `"data"` container, `some d` for a response whose
  `"data"` member is the dictionary `d` (an item of `d` is modelled with
  its title, price amount and detail-page URL present).
* An exception that the Python code does not catch is the `crash` outcome;
  exceptions caught by a per-item `except` block become per-item results.
-/

/-- Character class `[A-Z0-9]` of the ASIN regex. -/
def isUpperAlnum (c : Char) : Bool :=
  (decide ('A' ≤ c) && decide (c ≤ 'Z')) || (decide ('0' ≤ c) && decide (c ≤ '9'))

/-- The literal `/dp/` of the ASIN regex. -/
def dpLit : List Char := ['/', 'd', 'p', '/']

/-- The literal `/gp/product/` of the ASIN regex. -/
def gpLit : List Char := ['/', 'g', 'p', '/', 'p', 'r', 'o', 'd', 'u', 'c', 't', '/']

/-- Matching `([A-Z0-9]{10})` against the front of `cs`: ten characters of
the class, with no right-hand boundary requirement. -/
def takeAsin (cs : List Char) : Option (List Char) :=
  if (cs.take 10).length = 10 ∧ (cs.take 10).all isUpperAlnum = true then
    some (cs.take 10)
  else none

/-- One attempt of the regex `/(?:dp|gp/product)/([A-Z0-9]{10})` at the
front of `cs` (the two literal alternatives start with `/d` and `/g`, so
at most one of them can apply at a given position). -/
def matchAt (cs : List Char) : Option (List Char) :=
  if cs.take 4 = dpLit then takeAsin (cs.drop 4)
  else if cs.take 12 = gpLit then takeAsin (cs.drop 12)
  else none

/-- Search semantics of `re.search`: try the pattern at every position from the left
and return the first (leftmost) match. -/
def scanAsin : List Char → Option (List Char)
  | [] => none
  | c :: rest =>
    match matchAt (c :: rest) with
    | some t => some t
    | none => scanAsin rest

/-- The function `extract_asin` of `src/main.py`:
`re.search(r"/(?:dp|gp/product)/([A-Z0-9]{10})", url)`, returning the
captured group of the leftmost match, or `None`. -/
def extract_asin (url : String) : Option String :=
  (scanAsin url.toList).map (fun t => String.mk t)

/-- Specification-side reading of the extractor contract: at position `i`
of the URL stands `/dp/` or `/gp/product/`, followed immediately by the
ten-character token `t` of uppercase letters and digits. -/
def specTokenAt (cs : List Char) (i : Nat) (t : List Char) : Prop :=
  t.length = 10 ∧ t.all isUpperAlnum = true ∧
    (((cs.drop i).take 4 = dpLit ∧ (cs.drop (i + 4)).take 10 = t) ∨
     ((cs.drop i).take 12 = gpLit ∧ (cs.drop (i + 12)).take 10 = t))

/-! ## Data model -/

/-- A submitted registration item: body element `{url, target_price}`. -/
structure RegisterItem where
  url : String
  target_price : Rat
deriving DecidableEq

/-- One entry of the gateway's `"data"` dictionary, with the attributes the
handlers read: `item_info.title.display_value`, the listing price amount
`offers.listings[0].price.amount`, and `detail_page_url`. -/
structure GwItem where
  title : String
  amount : Rat
  url : String
deriving DecidableEq

/-- A row of the `products` table, in column order of the `INSERT`. -/
structure Row where
  user_id : String
  asin : String
  title : String
  price : Int
  url : String
  target_price : Rat
deriving DecidableEq

/-- The products table in insertion order. -/
abbrev Store := List Row

/-- Python dict lookup on an association list (first entry with the key;
a well-formed dict never has two entries with one key). -/
def dictGet {α : Type} (m : List (String × α)) (k : String) : Option α :=
  match m with
  | [] => none
  | (k', v) :: rest => if k' = k then some v else dictGet rest k

/-- Python dict assignment: overwriting a present key keeps its position,
a new key is appended at the end. -/
def dictInsert {α : Type} (m : List (String × α)) (k : String) (v : α) :
    List (String × α) :=
  match m with
  | [] => [(k, v)]
  | (k', v') :: rest =>
    if k' = k then (k', v) :: rest else (k', v') :: dictInsert rest k v

/-- One element of a Python dict comprehension
`{key(x): x for x in xs if key(x)}`: an element whose key is absent is
skipped, otherwise the key is assigned. -/
def pyStep {α : Type} (key : α → Option String) (m : List (String × α))
    (x : α) : List (String × α) :=
  match key x with
  | some k => dictInsert m k x
  | none => m

/-- A Python dict comprehension `{key(x): x for x in xs if key(x)}`:
elements whose key is absent are skipped, later occurrences of a key
overwrite earlier ones (last write wins). -/
def pyDict {α : Type} (key : α → Option String) (xs : List α) :
    List (String × α) :=
  xs.foldl (pyStep key) []

/-- The last element of `xs` whose key is `a` (specification-side reading
of last-write-wins de-duplication). -/
def lastWith {α : Type} (key : α → Option String) (a : String) :
    List α → Option α
  | [] => none
  | x :: xs =>
    match lastWith key a xs with
    | some y => some y
    | none => if key x = some a then some x else none

/-- Counting a user's rows: `SELECT COUNT(*) FROM products WHERE user_id = %s`. -/
def countUser (s : Store) (uid : String) : Nat :=
  (s.filter (fun r => r.user_id == uid)).length

/-- The rows of the pair `(user_id, asin)`, in order. -/
def pairRows (s : Store) (uid a : String) : List Row :=
  s.filter (fun r => r.user_id == uid && r.asin == a)

/-- Counting a pair's rows: `SELECT COUNT(*) FROM products WHERE user_id = %s AND asin = %s`. -/
def countPair (s : Store) (uid a : String) : Nat :=
  (pairRows s uid a).length

/-- Python `int(q)`: truncation towards zero. -/
def pyInt (q : Rat) : Int :=
  q.num.tdiv q.den

/-- The row inserted by `bulk_register` for ASIN `a`. -/
def mkRow (uid a : String) (gi : GwItem) (reg : RegisterItem) : Row :=
  ⟨uid, a, gi.title, pyInt gi.amount, gi.url, reg.target_price⟩

/-- The dict comprehension building `asin_map` in `bulk_register`. -/
def buildAsinMap (items : List RegisterItem) : List (String × RegisterItem) :=
  pyDict (fun it => extract_asin it.url) items

/-! ## bulk_register -/

/-- One element of the `results` list of `bulk_register` (the text of the
per-item error message is not modelled, only that an error is recorded). -/
inductive BulkItemResult where
  | inserted (asin title : String) (current_price : Int)
  | skipped (asin : String)
  | itemError (asin : String)
deriving DecidableEq

/-- The ASIN a per-item result refers to. -/
def resultAsin : BulkItemResult → String
  | .inserted a _ _ => a
  | .skipped a => a
  | .itemError a => a

/-- The response of `bulk_register`: quota error, gateway error, normal
summary, or an uncaught exception (`crash`, e.g. `KeyError` when the
gateway response has no `"data"` member). -/
inductive BulkResponse where
  | quotaError (current : Nat)
  | gatewayError
  | crash
  | ok (count : Nat) (items : List BulkItemResult)
deriving DecidableEq

/-- The `for asin in asin_list` loop of `bulk_register`: look the ASIN up
in the gateway data and in `asin_map` (a miss raises `KeyError`, caught by
the per-item `except` as an error entry), skip it when the pair is already
stored, insert otherwise.  The cursor sees this request's own earlier
uncommitted inserts, so the store threads through the loop. -/
def bulkLoop (uid : String) (d : List (String × GwItem))
    (amap : List (String × RegisterItem)) :
    Store → List BulkItemResult → List String → Store × List BulkItemResult
  | st, res, [] => (st, res)
  | st, res, a :: rest =>
    match dictGet d a with
    | none => bulkLoop uid d amap st (res ++ [BulkItemResult.itemError a]) rest
    | some gi =>
      match dictGet amap a with
      | none => bulkLoop uid d amap st (res ++ [BulkItemResult.itemError a]) rest
      | some reg =>
        if 0 < countPair st uid a then
          bulkLoop uid d amap st (res ++ [BulkItemResult.skipped a]) rest
        else
          bulkLoop uid d amap (st ++ [mkRow uid a gi reg])
            (res ++ [BulkItemResult.inserted a gi.title (pyInt gi.amount)]) rest

/-- The endpoint `bulk_register` of `src/main.py`: quota check on the raw submitted
count, de-duplicating extraction into `asin_map` (items without an ASIN
are dropped), gateway batch call (`data` parameter), `if not
products["data"]` (a missing `"data"` key raises an uncaught `KeyError` =
`crash`; an empty dict yields the gateway-error response), then the
per-ASIN loop and the summary `{message: f"{len(results)}...", items}`. -/
def bulk_register (s : Store) (uid : String) (items : List RegisterItem)
    (data : Option (List (String × GwItem))) : Store × BulkResponse :=
  if countUser s uid + items.length > 10 then
    (s, BulkResponse.quotaError (countUser s uid))
  else
    match data with
    | none => (s, BulkResponse.crash)
    | some d =>
      if d = [] then (s, BulkResponse.gatewayError)
      else
        ((bulkLoop uid d (buildAsinMap items) s []
            ((buildAsinMap items).map Prod.fst)).1,
         BulkResponse.ok
           (bulkLoop uid d (buildAsinMap items) s []
             ((buildAsinMap items).map Prod.fst)).2.length
           (bulkLoop uid d (buildAsinMap items) s []
             ((buildAsinMap items).map Prod.fst)).2)

/-! ## check_prices -/

/-- A notification record of `check_prices`. -/
structure Notification where
  asin : String
  title : String
  current_price : Rat
  target_price : Rat
  url : String
deriving DecidableEq

/-- The response of `check_prices`.  The active revision only ever builds
`notifications`; `gatewayError` is the error-object shape of the response
that the retired revision produced when the `"data"` container was
missing, kept so that its absence is expressible. -/
inductive CheckResponse where
  | notifications (xs : List Notification)
  | gatewayError
deriving DecidableEq

/-- The notification list of a response (`[]` for an error object). -/
def responseNotifs : CheckResponse → List Notification
  | .notifications xs => xs
  | .gatewayError => []

/-- One loop iteration that appends the successful result of `g`, if any,
to an accumulator (`results.append(...)` inside a guarded `try`). -/
def appendStep {α β : Type} (g : α → Option β) (acc : List β) (a : α) :
    List β :=
  match g a with
  | some n => acc ++ [n]
  | none => acc

/-- Reading a user's rows in request order: `SELECT ... FROM products WHERE user_id = %s`. -/
def userRows (s : Store) (uid : String) : List Row :=
  s.filter (fun r => r.user_id == uid)

/-- The dict comprehension building `asin_to_target` (keyed by ASIN, last
write wins; the whole row stands for the `{title, target_price, url}`
value dict). -/
def buildTarget (rows : List Row) : List (String × Row) :=
  pyDict (fun r => some r.asin) rows

/-- The body of the `try` block for one ASIN in `check_prices`: any failed
lookup (`products["data"]` without a data container, or a miss in the data
dict or in `asin_to_target`) raises, is caught, and yields no
notification; otherwise a notification is appended exactly when
`current_price <= target_price`. -/
def checkStep (data : Option (List (String × GwItem)))
    (tmap : List (String × Row)) (a : String) : Option Notification :=
  match data with
  | none => none
  | some d =>
    match dictGet d a with
    | none => none
    | some gi =>
      match dictGet tmap a with
      | none => none
      | some row =>
        if gi.amount ≤ row.target_price then
          some ⟨a, row.title, gi.amount, row.target_price, row.url⟩
        else none

/-- The endpoint `check_prices` of `src/main.py`: read the user's rows (an empty list
returns an empty notification list at once), collect `asin_list` and
`asin_to_target`, call the gateway, and run the per-ASIN loop.  The active
revision performs no check on the `"data"` container: every failure inside
the loop body is caught per item. -/
def check_prices (s : Store) (uid : String)
    (data : Option (List (String × GwItem))) : Store × CheckResponse :=
  if userRows s uid = [] then (s, CheckResponse.notifications [])
  else
    (s, CheckResponse.notifications
      (((userRows s uid).map Row.asin).foldl
        (appendStep (checkStep data (buildTarget (userRows s uid)))) []))

/-! ## delete_product -/

/-- The response of `delete_product`: HTTP 404 or the success message. -/
inductive DeleteResponse where
  | notFound
  | deleted
deriving DecidableEq

/-- The endpoint `delete_product` of `src/main.py`: count the `(user_id, asin)` rows,
signal 404 when there are none, otherwise `DELETE` every matching row. -/
def delete_product (s : Store) (uid a : String) : Store × DeleteResponse :=
  if countPair s uid a = 0 then (s, DeleteResponse.notFound)
  else
    (s.filter (fun r => !(r.user_id == uid && r.asin == a)),
     DeleteResponse.deleted)

/-! ## Lemmas about the extractor -/

theorem takeAsin_eq_some (cs t : List Char) :
    takeAsin cs = some t ↔
      t.length = 10 ∧ t.all isUpperAlnum = true ∧ cs.take 10 = t := by
  constructor
  · intro h
    unfold takeAsin at h
    split at h
    · rename_i hc
      cases h
      exact ⟨hc.1, hc.2, rfl⟩
    · exact Option.noConfusion h
  · rintro ⟨h1, h2, rfl⟩
    unfold takeAsin
    rw [if_pos ⟨h1, h2⟩]

theorem dp_gp_not_both {l : List Char} (h4 : l.take 4 = dpLit)
    (h12 : l.take 12 = gpLit) : False := by
  have h : (l.take 12).take 4 = l.take 4 := by
    rw [List.take_take]
    norm_num
  rw [h4, h12] at h
  exact absurd h (by decide)

theorem matchAt_eq_some (l t : List Char) :
    matchAt l = some t ↔
      t.length = 10 ∧ t.all isUpperAlnum = true ∧
        ((l.take 4 = dpLit ∧ (l.drop 4).take 10 = t) ∨
         (l.take 12 = gpLit ∧ (l.drop 12).take 10 = t)) := by
  unfold matchAt
  by_cases h4 : l.take 4 = dpLit
  · rw [if_pos h4, takeAsin_eq_some]
    constructor
    · rintro ⟨h1, h2, h3⟩
      exact ⟨h1, h2, Or.inl ⟨h4, h3⟩⟩
    · rintro ⟨h1, h2, ⟨_, h3⟩ | ⟨h12, _⟩⟩
      · exact ⟨h1, h2, h3⟩
      · exact (dp_gp_not_both h4 h12).elim
  · by_cases h12 : l.take 12 = gpLit
    · rw [if_neg h4, if_pos h12, takeAsin_eq_some]
      constructor
      · rintro ⟨h1, h2, h3⟩
        exact ⟨h1, h2, Or.inr ⟨h12, h3⟩⟩
      · rintro ⟨h1, h2, ⟨hd, _⟩ | ⟨_, h3⟩⟩
        · exact (h4 hd).elim
        · exact ⟨h1, h2, h3⟩
    · rw [if_neg h4, if_neg h12]
      constructor
      · intro h
        exact Option.noConfusion h
      · rintro ⟨_, _, ⟨hd, _⟩ | ⟨hg, _⟩⟩
        · exact (h4 hd).elim
        · exact (h12 hg).elim

theorem matchAt_nil : matchAt ([] : List Char) = none := by decide

theorem specTokenAt_iff_matchAt (cs : List Char) (i : Nat) (t : List Char) :
    specTokenAt cs i t ↔ matchAt (cs.drop i) = some t := by
  rw [matchAt_eq_some]
  unfold specTokenAt
  have e4 : (cs.drop i).drop 4 = cs.drop (i + 4) := by
    rw [List.drop_drop]
  have e12 : (cs.drop i).drop 12 = cs.drop (i + 12) := by
    rw [List.drop_drop]
  rw [e4, e12]

theorem scanAsin_eq_some (cs t : List Char) :
    scanAsin cs = some t ↔
      ∃ i, matchAt (cs.drop i) = some t ∧
        ∀ j, j < i → matchAt (cs.drop j) = none := by
  induction cs with
  | nil =>
    constructor
    · intro h
      exact Option.noConfusion h
    · rintro ⟨i, hi, _⟩
      rw [List.drop_nil, matchAt_nil] at hi
      exact Option.noConfusion hi
  | cons c rest ih =>
    have hs : scanAsin (c :: rest) =
        (match matchAt (c :: rest) with
         | some u => some u
         | none => scanAsin rest) := rfl
    cases h : matchAt (c :: rest) with
    | some u =>
      rw [hs, h]
      constructor
      · intro ht
        refine ⟨0, ?_, ?_⟩
        · rw [List.drop_zero, h]
          exact ht
        · intro j hj
          omega
      · rintro ⟨i, hi, hmin⟩
        cases i with
        | zero =>
          rw [List.drop_zero] at hi
          rw [h] at hi
          exact hi
        | succ i' =>
          have h0 := hmin 0 (Nat.succ_pos i')
          rw [List.drop_zero, h] at h0
          exact Option.noConfusion h0
    | none =>
      rw [hs, h, ih]
      constructor
      · rintro ⟨i, hi, hmin⟩
        refine ⟨i + 1, hi, ?_⟩
        intro j hj
        cases j with
        | zero =>
          rw [List.drop_zero]
          exact h
        | succ j' =>
          exact hmin j' (by omega)
      · rintro ⟨i, hi, hmin⟩
        cases i with
        | zero =>
          rw [List.drop_zero, h] at hi
          exact Option.noConfusion hi
        | succ i' =>
          refine ⟨i', hi, ?_⟩
          intro j hj
          exact hmin (j + 1) (by omega)

theorem scanAsin_eq_none (cs : List Char) :
    scanAsin cs = none ↔ ∀ i, matchAt (cs.drop i) = none := by
  induction cs with
  | nil =>
    constructor
    · intro _ i
      rw [List.drop_nil, matchAt_nil]
    · intro _
      rfl
  | cons c rest ih =>
    have hs : scanAsin (c :: rest) =
        (match matchAt (c :: rest) with
         | some u => some u
         | none => scanAsin rest) := rfl
    cases h : matchAt (c :: rest) with
    | some u =>
      rw [hs, h]
      constructor
      · intro h'
        exact Option.noConfusion h'
      · intro hall
        have h0 := hall 0
        rw [List.drop_zero, h] at h0
        exact Option.noConfusion h0
    | none =>
      rw [hs, h, ih]
      constructor
      · intro hall i
        cases i with
        | zero =>
          rw [List.drop_zero]
          exact h
        | succ i' =>
          exact hall i'
      · intro hall i
        exact hall (i + 1)

theorem extract_asin_eq_some (s t : String) :
    extract_asin s = some t ↔ scanAsin s.toList = some t.toList := by
  unfold extract_asin
  cases hsc : scanAsin s.toList with
  | none => simp
  | some l =>
    show some (String.mk l) = some t ↔ some l = some t.toList
    constructor
    · intro h
      have h2 : String.mk l = t := by injection h
      rw [← h2]
      rfl
    · intro h
      have h2 : l = t.toList := by injection h
      rw [h2]
      cases t
      rfl

theorem extract_asin_eq_none (s : String) :
    extract_asin s = none ↔ scanAsin s.toList = none := by
  unfold extract_asin
  cases hsc : scanAsin s.toList <;> simp

/-! ## Lemmas about the dictionary model -/

theorem dictGet_dictInsert {α : Type} (m : List (String × α)) (k a : String)
    (v : α) :
    dictGet (dictInsert m k v) a = if k = a then some v else dictGet m a := by
  induction m with
  | nil => rfl
  | cons p rest ih =>
    obtain ⟨k', v'⟩ := p
    simp only [dictInsert]
    by_cases hk : k' = k
    · rw [if_pos hk]
      subst hk
      by_cases hka : k' = a
      · simp [dictGet, hka]
      · simp [dictGet, hka]
    · rw [if_neg hk]
      by_cases hka : k' = a
      · have hka2 : ¬(k = a) := fun h => hk (hka.trans h.symm)
        simp [dictGet, hka, hka2]
      · simp [dictGet, hka, ih]

theorem mem_keys_dictInsert {α : Type} (m : List (String × α)) (k a : String)
    (v : α) :
    a ∈ (dictInsert m k v).map Prod.fst ↔ a ∈ m.map Prod.fst ∨ a = k := by
  induction m with
  | nil => simp [dictInsert]
  | cons p rest ih =>
    obtain ⟨k', v'⟩ := p
    simp only [dictInsert]
    by_cases hk : k' = k
    · rw [if_pos hk]
      subst hk
      simp only [List.map_cons, List.mem_cons]
      tauto
    · rw [if_neg hk]
      simp only [List.map_cons, List.mem_cons, ih]
      tauto

theorem nodup_keys_dictInsert {α : Type} (m : List (String × α)) (k : String)
    (v : α) (h : (m.map Prod.fst).Nodup) :
    ((dictInsert m k v).map Prod.fst).Nodup := by
  induction m with
  | nil => simp [dictInsert]
  | cons p rest ih =>
    obtain ⟨k', v'⟩ := p
    simp only [List.map_cons, List.nodup_cons] at h
    simp only [dictInsert]
    by_cases hk : k' = k
    · rw [if_pos hk]
      simp only [List.map_cons, List.nodup_cons]
      exact h
    · rw [if_neg hk]
      simp only [List.map_cons, List.nodup_cons]
      refine ⟨?_, ih h.2⟩
      intro hmem
      rcases (mem_keys_dictInsert rest k k' v).mp hmem with hin | heq
      · exact h.1 hin
      · exact hk heq

theorem length_dictInsert_le {α : Type} (m : List (String × α)) (k : String)
    (v : α) : (dictInsert m k v).length ≤ m.length + 1 := by
  induction m with
  | nil => simp [dictInsert]
  | cons p rest ih =>
    obtain ⟨k', v'⟩ := p
    by_cases hk : k' = k
    · simp only [dictInsert, if_pos hk, List.length_cons]
      omega
    · simp only [dictInsert, if_neg hk, List.length_cons]
      omega

theorem dictGet_isSome_iff {α : Type} (m : List (String × α)) (k : String) :
    (dictGet m k).isSome = true ↔ k ∈ m.map Prod.fst := by
  induction m with
  | nil => simp [dictGet]
  | cons p rest ih =>
    obtain ⟨k', v'⟩ := p
    by_cases hk : k' = k
    · subst hk
      simp [dictGet]
    · simp only [dictGet, if_neg hk, List.map_cons, List.mem_cons, ih]
      constructor
      · intro h
        exact Or.inr h
      · rintro (h | h)
        · exact absurd h.symm hk
        · exact h

theorem pyStep_key_none {α : Type} {key : α → Option String}
    {x : α} (m : List (String × α)) (h : key x = none) :
    pyStep key m x = m := by
  unfold pyStep
  rw [h]

theorem pyStep_key_some {α : Type} {key : α → Option String}
    {x : α} {k : String} (m : List (String × α)) (h : key x = some k) :
    pyStep key m x = dictInsert m k x := by
  unfold pyStep
  rw [h]

theorem dictGet_foldl_pyStep {α : Type} (key : α → Option String) (a : String)
    (xs : List α) (m : List (String × α)) :
    dictGet (xs.foldl (pyStep key) m) a =
      (match lastWith key a xs with
       | some y => some y
       | none => dictGet m a) := by
  induction xs generalizing m with
  | nil => rfl
  | cons x xs ih =>
    rw [List.foldl_cons, ih]
    simp only [lastWith]
    cases hl : lastWith key a xs with
    | some y => rfl
    | none =>
      cases hk : key x with
      | none => simp [pyStep, hk]
      | some k =>
        by_cases hka : k = a
        · subst hka
          simp [pyStep, hk, dictGet_dictInsert]
        · simp [pyStep, hk, dictGet_dictInsert, hka]

theorem dictGet_pyDict {α : Type} (key : α → Option String) (xs : List α)
    (a : String) :
    dictGet (pyDict key xs) a = lastWith key a xs := by
  unfold pyDict
  rw [dictGet_foldl_pyStep]
  cases lastWith key a xs <;> rfl

theorem nodup_keys_foldl_pyStep {α : Type} (key : α → Option String)
    (xs : List α) (m : List (String × α)) (h : (m.map Prod.fst).Nodup) :
    (((xs.foldl (pyStep key) m)).map Prod.fst).Nodup := by
  induction xs generalizing m with
  | nil => exact h
  | cons x xs ih =>
    rw [List.foldl_cons]
    cases hk : key x with
    | none =>
      rw [pyStep_key_none m hk]
      exact ih m h
    | some k =>
      rw [pyStep_key_some m hk]
      exact ih _ (nodup_keys_dictInsert m k x h)

theorem nodup_keys_pyDict {α : Type} (key : α → Option String)
    (xs : List α) : ((pyDict key xs).map Prod.fst).Nodup :=
  nodup_keys_foldl_pyStep key xs [] (by simp)

theorem mem_keys_foldl_pyStep {α : Type} (key : α → Option String)
    (a : String) (xs : List α) (m : List (String × α)) :
    a ∈ (xs.foldl (pyStep key) m).map Prod.fst ↔
      a ∈ m.map Prod.fst ∨ ∃ x ∈ xs, key x = some a := by
  induction xs generalizing m with
  | nil => simp
  | cons x xs ih =>
    rw [List.foldl_cons, ih]
    cases hk : key x with
    | none =>
      rw [pyStep_key_none m hk]
      constructor
      · rintro (h | ⟨y, hy, hky⟩)
        · exact Or.inl h
        · exact Or.inr ⟨y, List.mem_cons_of_mem x hy, hky⟩
      · rintro (h | ⟨y, hy, hky⟩)
        · exact Or.inl h
        · rcases List.mem_cons.mp hy with rfl | hy'
          · rw [hk] at hky
            exact Option.noConfusion hky
          · exact Or.inr ⟨y, hy', hky⟩
    | some k =>
      rw [pyStep_key_some m hk, mem_keys_dictInsert]
      constructor
      · rintro ((h | heq) | ⟨y, hy, hky⟩)
        · exact Or.inl h
        · refine Or.inr ⟨x, List.mem_cons_self x xs, ?_⟩
          rw [hk, heq]
        · exact Or.inr ⟨y, List.mem_cons_of_mem x hy, hky⟩
      · rintro (h | ⟨y, hy, hky⟩)
        · exact Or.inl (Or.inl h)
        · rcases List.mem_cons.mp hy with rfl | hy'
          · rw [hk] at hky
            injection hky with hky
            exact Or.inl (Or.inr hky.symm)
          · exact Or.inr ⟨y, hy', hky⟩

theorem mem_keys_pyDict {α : Type} (key : α → Option String) (xs : List α)
    (a : String) :
    a ∈ (pyDict key xs).map Prod.fst ↔ ∃ x ∈ xs, key x = some a := by
  unfold pyDict
  rw [mem_keys_foldl_pyStep]
  simp

theorem length_foldl_pyStep_le {α : Type} (key : α → Option String)
    (xs : List α) (m : List (String × α)) :
    (xs.foldl (pyStep key) m).length ≤ m.length + xs.length := by
  induction xs generalizing m with
  | nil => simp
  | cons x xs ih =>
    rw [List.foldl_cons]
    cases hk : key x with
    | none =>
      rw [pyStep_key_none m hk]
      have := ih m
      simp only [List.length_cons]
      omega
    | some k =>
      rw [pyStep_key_some m hk]
      have h1 := ih (dictInsert m k x)
      have h2 := length_dictInsert_le m k x
      simp only [List.length_cons]
      omega

theorem length_pyDict_le {α : Type} (key : α → Option String)
    (xs : List α) : (pyDict key xs).length ≤ xs.length := by
  unfold pyDict
  have := length_foldl_pyStep_le key xs []
  simpa using this

theorem lastWith_eq_none_iff {α : Type} (key : α → Option String)
    (a : String) (xs : List α) :
    lastWith key a xs = none ↔ ∀ x ∈ xs, key x ≠ some a := by
  induction xs with
  | nil => simp [lastWith]
  | cons x xs ih =>
    simp only [lastWith]
    cases hl : lastWith key a xs with
    | some y =>
      constructor
      · intro h
        exact Option.noConfusion h
      · intro h
        have hy : ∀ z ∈ xs, key z ≠ some a := fun z hz => h z (List.mem_cons_of_mem x hz)
        rw [ih.mpr hy] at hl
        exact Option.noConfusion hl
    | none =>
      have hxs := ih.mp hl
      by_cases hx : key x = some a
      · rw [if_pos hx]
        constructor
        · intro h
          exact Option.noConfusion h
        · intro h
          exact absurd hx (h x (List.mem_cons_self x xs))
      · rw [if_neg hx]
        constructor
        · intro _ z hz
          rcases List.mem_cons.mp hz with rfl | hz'
          · exact hx
          · exact hxs z hz'
        · intro _
          rfl

theorem lastWith_eq_some {α : Type} (key : α → Option String) (a : String)
    (xs : List α) (y : α) (h : lastWith key a xs = some y) :
    y ∈ xs ∧ key y = some a := by
  induction xs with
  | nil => exact Option.noConfusion h
  | cons x xs ih =>
    simp only [lastWith] at h
    cases hl : lastWith key a xs with
    | some z =>
      rw [hl] at h
      injection h with h
      subst h
      obtain ⟨hm, hk⟩ := ih hl
      exact ⟨List.mem_cons_of_mem x hm, hk⟩
    | none =>
      rw [hl] at h
      by_cases hx : key x = some a
      · rw [if_pos hx] at h
        injection h with h
        subst h
        exact ⟨List.mem_cons_self x xs, hx⟩
      · rw [if_neg hx] at h
        exact Option.noConfusion h

/-- In a list whose keys are distinct, the last element with a given key
is the unique element with that key. -/
theorem lastWith_of_nodup {α : Type} (f : α → String) (xs : List α) (x : α)
    (hnd : (xs.map f).Nodup) (hx : x ∈ xs) :
    lastWith (fun y => some (f y)) (f x) xs = some x := by
  induction xs with
  | nil => exact absurd hx (List.not_mem_nil x)
  | cons z xs ih =>
    simp only [List.map_cons, List.nodup_cons] at hnd
    simp only [lastWith]
    rcases List.mem_cons.mp hx with rfl | hx'
    · have hnone : lastWith (fun y => some (f y)) (f x) xs = none := by
        rw [lastWith_eq_none_iff]
        intro z hz hkz
        injection hkz with hkz
        exact hnd.1 (hkz ▸ List.mem_map_of_mem f hz)
      rw [hnone, if_pos rfl]
    · rw [ih hnd.2 hx']

/-! ## Lemmas about store counting and the bulk-registration loop -/

theorem countUser_append (s1 s2 : Store) (uid : String) :
    countUser (s1 ++ s2) uid = countUser s1 uid + countUser s2 uid := by
  unfold countUser
  rw [List.filter_append, List.length_append]

theorem countUser_le_length (s : Store) (uid : String) :
    countUser s uid ≤ s.length := by
  unfold countUser
  exact List.length_filter_le _ _

theorem pairRows_append (s1 s2 : Store) (uid a : String) :
    pairRows (s1 ++ s2) uid a = pairRows s1 uid a ++ pairRows s2 uid a := by
  unfold pairRows
  rw [List.filter_append]

/-- Accumulating appends of the successful results of `g` along a list is
`filterMap`. -/
theorem foldl_opt_append {α β : Type} (g : α → Option β) (l : List α)
    (acc : List β) :
    l.foldl (appendStep g) acc = acc ++ l.filterMap g := by
  induction l generalizing acc with
  | nil => simp
  | cons x l ih =>
    rw [List.foldl_cons, ih]
    cases hg : g x with
    | none => simp [appendStep, List.filterMap_cons, hg]
    | some n => simp [appendStep, List.filterMap_cons, hg]

/-- Shape of one run of the `bulk_register` loop: the store grows only by
appended rows, one per inserted ASIN of the processed list, each built by
`mkRow` from the gateway item and the de-duplicated submitted item of its
ASIN; the result list grows by exactly one entry per processed ASIN, each
carrying a processed ASIN. -/
theorem bulkLoop_spec (uid : String) (d : List (String × GwItem))
    (amap : List (String × RegisterItem)) (l : List String) :
    ∀ st res, ∃ ext tail,
      bulkLoop uid d amap st res l = (st ++ ext, res ++ tail) ∧
      ext.length ≤ l.length ∧
      (∀ r ∈ ext, r.user_id = uid ∧ r.asin ∈ l ∧
        ∃ gi reg, dictGet d r.asin = some gi ∧
          dictGet amap r.asin = some reg ∧ r = mkRow uid r.asin gi reg) ∧
      tail.length = l.length ∧
      (∀ e ∈ tail, resultAsin e ∈ l) := by
  induction l with
  | nil =>
    intro st res
    refine ⟨[], [], by simp [bulkLoop], by simp, by simp, by simp, by simp⟩
  | cons a l ih =>
    intro st res
    cases h1 : dictGet d a with
    | none =>
      obtain ⟨ext, tail, heq, hlen, hext, htlen, htail⟩ :=
        ih st (res ++ [BulkItemResult.itemError a])
      refine ⟨ext, BulkItemResult.itemError a :: tail, ?_, ?_, ?_, ?_, ?_⟩
      · simp only [bulkLoop, h1]
        rw [heq]
        simp
      · simp only [List.length_cons]
        omega
      · intro r hr
        obtain ⟨hu, ha, hrest⟩ := hext r hr
        exact ⟨hu, List.mem_cons_of_mem a ha, hrest⟩
      · simp only [List.length_cons, htlen]
      · intro e he
        rcases List.mem_cons.mp he with rfl | he'
        · simp [resultAsin]
        · exact List.mem_cons_of_mem a (htail e he')
    | some gi =>
      cases h2 : dictGet amap a with
      | none =>
        obtain ⟨ext, tail, heq, hlen, hext, htlen, htail⟩ :=
          ih st (res ++ [BulkItemResult.itemError a])
        refine ⟨ext, BulkItemResult.itemError a :: tail, ?_, ?_, ?_, ?_, ?_⟩
        · simp only [bulkLoop, h1, h2]
          rw [heq]
          simp
        · simp only [List.length_cons]
          omega
        · intro r hr
          obtain ⟨hu, ha, hrest⟩ := hext r hr
          exact ⟨hu, List.mem_cons_of_mem a ha, hrest⟩
        · simp only [List.length_cons, htlen]
        · intro e he
          rcases List.mem_cons.mp he with rfl | he'
          · simp [resultAsin]
          · exact List.mem_cons_of_mem a (htail e he')
      | some reg =>
        by_cases hc : 0 < countPair st uid a
        · obtain ⟨ext, tail, heq, hlen, hext, htlen, htail⟩ :=
            ih st (res ++ [BulkItemResult.skipped a])
          refine ⟨ext, BulkItemResult.skipped a :: tail, ?_, ?_, ?_, ?_, ?_⟩
          · simp only [bulkLoop, h1, h2]
            rw [if_pos hc, heq]
            simp
          · simp only [List.length_cons]
            omega
          · intro r hr
            obtain ⟨hu, ha, hrest⟩ := hext r hr
            exact ⟨hu, List.mem_cons_of_mem a ha, hrest⟩
          · simp only [List.length_cons, htlen]
          · intro e he
            rcases List.mem_cons.mp he with rfl | he'
            · simp [resultAsin]
            · exact List.mem_cons_of_mem a (htail e he')
        · obtain ⟨ext, tail, heq, hlen, hext, htlen, htail⟩ :=
            ih (st ++ [mkRow uid a gi reg])
              (res ++ [BulkItemResult.inserted a gi.title (pyInt gi.amount)])
          refine ⟨mkRow uid a gi reg :: ext,
            BulkItemResult.inserted a gi.title (pyInt gi.amount) :: tail,
            ?_, ?_, ?_, ?_, ?_⟩
          · simp only [bulkLoop, h1, h2]
            rw [if_neg hc, heq]
            simp
          · simp only [List.length_cons]
            omega
          · intro r hr
            rcases List.mem_cons.mp hr with rfl | hr'
            · refine ⟨rfl, List.mem_cons_self a l, gi, reg, ?_, ?_, rfl⟩
              · exact h1
              · exact h2
            · obtain ⟨hu, ha, hrest⟩ := hext r hr'
              exact ⟨hu, List.mem_cons_of_mem a ha, hrest⟩
          · simp only [List.length_cons, htlen]
          · intro e he
            rcases List.mem_cons.mp he with rfl | he'
            · simp [resultAsin]
            · exact List.mem_cons_of_mem a (htail e he')

/-- The `bulk_register` loop never touches the rows of a pair that is
already present when it starts. -/
theorem bulkLoop_pairRows (uid a : String) (d : List (String × GwItem))
    (amap : List (String × RegisterItem)) (l : List String) :
    ∀ st res, 0 < countPair st uid a →
      pairRows (bulkLoop uid d amap st res l).1 uid a = pairRows st uid a := by
  induction l with
  | nil =>
    intro st res _
    rfl
  | cons b l ih =>
    intro st res hpos
    cases h1 : dictGet d b with
    | none =>
      simp only [bulkLoop, h1]
      exact ih st _ hpos
    | some gi =>
      cases h2 : dictGet amap b with
      | none =>
        simp only [bulkLoop, h1, h2]
        exact ih st _ hpos
      | some reg =>
        simp only [bulkLoop, h1, h2]
        by_cases hc : 0 < countPair st uid b
        · rw [if_pos hc]
          exact ih st _ hpos
        · rw [if_neg hc]
          have hba : b ≠ a := by
            intro h
            subst h
            exact hc hpos
          have hba2 : (b == a) = false := by
            simp [hba]
          have hsingle : pairRows [mkRow uid b gi reg] uid a = [] := by
            simp [pairRows, mkRow, List.filter_cons, hba2]
          have hrows : pairRows (st ++ [mkRow uid b gi reg]) uid a =
              pairRows st uid a := by
            rw [pairRows_append, hsingle, List.append_nil]
          have hpos2 : 0 < countPair (st ++ [mkRow uid b gi reg]) uid a := by
            unfold countPair
            rw [hrows]
            exact hpos
          rw [ih _ _ hpos2, hrows]

/-- An ASIN of the processed list whose pair is already stored when the
loop starts, and which both the gateway data and the de-duplicated map
resolve, is reported as skipped (already registered). -/
theorem bulkLoop_skipped (uid a : String) (d : List (String × GwItem))
    (amap : List (String × RegisterItem)) (l : List String) :
    ∀ st res, 0 < countPair st uid a → a ∈ l →
      (dictGet d a).isSome = true → (dictGet amap a).isSome = true →
      BulkItemResult.skipped a ∈ (bulkLoop uid d amap st res l).2 := by
  induction l with
  | nil =>
    intro st res _ h _ _
    exact absurd h (List.not_mem_nil a)
  | cons b l ih =>
    intro st res hpos hmem hd hm
    by_cases hab : b = a
    · subst hab
      obtain ⟨gi, hgi⟩ := Option.isSome_iff_exists.mp hd
      obtain ⟨reg, hreg⟩ := Option.isSome_iff_exists.mp hm
      simp only [bulkLoop, hgi, hreg]
      rw [if_pos hpos]
      obtain ⟨ext, tail, heq, -, -, -, -⟩ :=
        bulkLoop_spec uid d amap l st (res ++ [BulkItemResult.skipped b])
      rw [heq]
      simp
    · have hmem' : a ∈ l := by
        rcases List.mem_cons.mp hmem with h | h
        · exact absurd h.symm hab
        · exact h
      cases h1 : dictGet d b with
      | none =>
        simp only [bulkLoop, h1]
        exact ih st _ hpos hmem' hd hm
      | some gi =>
        cases h2 : dictGet amap b with
        | none =>
          simp only [bulkLoop, h1, h2]
          exact ih st _ hpos hmem' hd hm
        | some reg =>
          simp only [bulkLoop, h1, h2]
          by_cases hc : 0 < countPair st uid b
          · rw [if_pos hc]
            exact ih st _ hpos hmem' hd hm
          · rw [if_neg hc]
            have hle : countPair st uid a ≤
                countPair (st ++ [mkRow uid b gi reg]) uid a := by
              unfold countPair
              rw [pairRows_append, List.length_append]
              omega
            exact ih _ _ (by omega) hmem' hd hm

/-- C4: `extract_asin` returns the first ten-character token of uppercase
letters and digits that follows a path segment `dp` or `gp/product` plus a
slash (the leftmost position where the pattern matches), and returns
`none` exactly when no position of the input matches; case-sensitivity of
the token and totality (no exception on malformed input) are part of
`specTokenAt` and of `extract_asin` being a total function. -/
theorem extract_asin_spec (s t : String) :
    (extract_asin s = some t ↔
      ∃ i, specTokenAt s.toList i t.toList ∧
        ∀ j u, j < i → ¬ specTokenAt s.toList j u) ∧
    (extract_asin s = none ↔ ∀ i u, ¬ specTokenAt s.toList i u) := by
  constructor
  · rw [extract_asin_eq_some, scanAsin_eq_some]
    constructor
    · rintro ⟨i, hi, hmin⟩
      refine ⟨i, (specTokenAt_iff_matchAt _ _ _).mpr hi, ?_⟩
      intro j u hj hspec
      have hu := (specTokenAt_iff_matchAt _ _ _).mp hspec
      rw [hmin j hj] at hu
      exact Option.noConfusion hu
    · rintro ⟨i, hi, hmin⟩
      refine ⟨i, (specTokenAt_iff_matchAt _ _ _).mp hi, ?_⟩
      intro j hj
      cases hmj : matchAt (s.toList.drop j) with
      | none => rfl
      | some u =>
        exact absurd ((specTokenAt_iff_matchAt _ _ _).mpr hmj) (hmin j u hj)
  · rw [extract_asin_eq_none, scanAsin_eq_none]
    constructor
    · intro hall i u hspec
      have hu := (specTokenAt_iff_matchAt _ _ _).mp hspec
      rw [hall i] at hu
      exact Option.noConfusion hu
    · intro hall i
      cases hmj : matchAt (s.toList.drop i) with
      | none => rfl
      | some u =>
        exact absurd ((specTokenAt_iff_matchAt _ _ _).mpr hmj) (hall i u)

/-- C10: when `/dp/` or `/gp/product/` at position `i` is followed by a
run of more than ten consecutive uppercase letters and digits (eleven
characters of the class are present), the matcher still succeeds there and
captures exactly the first ten characters of the run (the token pattern
has no right-hand boundary), so the extractor does not report not-found;
when the run is the leftmost occurrence of the pattern, the extractor
returns those first ten characters. -/
theorem extract_asin_long_run (s : String) (i off : Nat)
    (hoff : (off = 4 ∧ (s.toList.drop i).take 4 = dpLit) ∨
            (off = 12 ∧ (s.toList.drop i).take 12 = gpLit))
    (hlen : ((s.toList.drop (i + off)).take 11).length = 11)
    (hall : ((s.toList.drop (i + off)).take 11).all isUpperAlnum = true) :
    matchAt (s.toList.drop i) = some ((s.toList.drop (i + off)).take 10) ∧
    extract_asin s ≠ none ∧
    ((∀ j u, j < i → ¬ specTokenAt s.toList j u) →
      extract_asin s =
        some (String.mk ((s.toList.drop (i + off)).take 10))) := by
  have hxlen : 11 ≤ (s.toList.drop (i + off)).length := by
    rw [List.length_take] at hlen
    omega
  have ht10 : (s.toList.drop (i + off)).take 10 =
      ((s.toList.drop (i + off)).take 11).take 10 := by
    rw [List.take_take]
    norm_num
  have hlen10 : ((s.toList.drop (i + off)).take 10).length = 10 := by
    rw [List.length_take]
    omega
  have hall10 : ((s.toList.drop (i + off)).take 10).all isUpperAlnum = true := by
    rw [ht10, List.all_eq_true]
    intro c hc
    exact (List.all_eq_true.mp hall) c (List.mem_of_mem_take hc)
  have hmatch : matchAt (s.toList.drop i) =
      some ((s.toList.drop (i + off)).take 10) := by
    rw [matchAt_eq_some]
    refine ⟨hlen10, hall10, ?_⟩
    rcases hoff with ⟨rfl, hlit⟩ | ⟨rfl, hlit⟩
    · refine Or.inl ⟨hlit, ?_⟩
      rw [List.drop_drop]
    · refine Or.inr ⟨hlit, ?_⟩
      rw [List.drop_drop]
  refine ⟨hmatch, ?_, ?_⟩
  · intro hnone
    have hall' := (scanAsin_eq_none s.toList).mp
      ((extract_asin_eq_none s).mp hnone)
    have hcontra := hall' i
    rw [hmatch] at hcontra
    exact Option.noConfusion hcontra
  · intro hmin
    have hgoal : scanAsin s.toList =
        some ((String.mk ((s.toList.drop (i + off)).take 10)).toList) := by
      rw [scanAsin_eq_some]
      refine ⟨i, hmatch, ?_⟩
      intro j hj
      cases hmj : matchAt (s.toList.drop j) with
      | none => rfl
      | some u =>
        exact absurd ((specTokenAt_iff_matchAt _ _ _).mpr hmj) (hmin j u hj)
    exact (extract_asin_eq_some s _).mpr hgoal

/-- Witness for C10: `"/dp/"` followed by the eleven-character run
`ABCDEFGHIJK` yields the first ten characters `ABCDEFGHIJ`. -/
theorem extract_asin_long_run_witness :
    extract_asin "/dp/ABCDEFGHIJK" = some "ABCDEFGHIJ" := by
  have h := extract_asin_long_run "/dp/ABCDEFGHIJK" 0 4
    (Or.inl ⟨rfl, by decide⟩) (by decide) (by decide)
  have h3 := h.2.2 (by intro j u hj; omega)
  rw [h3]
  decide

theorem bulk_register_none (s : Store) (uid : String)
    (items : List RegisterItem) :
    bulk_register s uid items none =
      if countUser s uid + items.length > 10 then
        (s, BulkResponse.quotaError (countUser s uid))
      else (s, BulkResponse.crash) := rfl

theorem bulk_register_some (s : Store) (uid : String)
    (items : List RegisterItem) (d : List (String × GwItem)) :
    bulk_register s uid items (some d) =
      if countUser s uid + items.length > 10 then
        (s, BulkResponse.quotaError (countUser s uid))
      else if d = [] then (s, BulkResponse.gatewayError)
      else
        ((bulkLoop uid d (buildAsinMap items) s []
            ((buildAsinMap items).map Prod.fst)).1,
         BulkResponse.ok
           (bulkLoop uid d (buildAsinMap items) s []
             ((buildAsinMap items).map Prod.fst)).2.length
           (bulkLoop uid d (buildAsinMap items) s []
             ((buildAsinMap items).map Prod.fst)).2) := rfl

/-- C2: a bulk registration with `current_count + k > 10` is rejected with
the quota-exceeded error and the store unchanged; with
`current_count + k ≤ 10` the quota check passes (the response is never the
quota error); and the at-most-ten invariant is preserved: a user holding
at most ten rows still holds at most ten rows afterwards. -/
theorem bulk_register_quota_spec (s : Store) (uid : String)
    (items : List RegisterItem) (data : Option (List (String × GwItem))) :
    (countUser s uid + items.length > 10 →
      bulk_register s uid items data =
        (s, BulkResponse.quotaError (countUser s uid))) ∧
    (countUser s uid + items.length ≤ 10 →
      ∀ n, (bulk_register s uid items data).2 ≠ BulkResponse.quotaError n) ∧
    (countUser s uid ≤ 10 →
      countUser (bulk_register s uid items data).1 uid ≤ 10) := by
  by_cases hq : countUser s uid + items.length > 10
  · refine ⟨fun _ => ?_, fun h => absurd hq (by omega), fun h10 => ?_⟩
    · cases data with
      | none => rw [bulk_register_none, if_pos hq]
      | some d => rw [bulk_register_some, if_pos hq]
    · cases data with
      | none =>
        rw [bulk_register_none, if_pos hq]
        exact h10
      | some d =>
        rw [bulk_register_some, if_pos hq]
        exact h10
  · refine ⟨fun h => absurd h hq, fun _ n => ?_, fun h10 => ?_⟩
    · cases data with
      | none =>
        rw [bulk_register_none, if_neg hq]
        exact fun h => BulkResponse.noConfusion h
      | some d =>
        rw [bulk_register_some, if_neg hq]
        by_cases hd : d = []
        · rw [if_pos hd]
          exact fun h => BulkResponse.noConfusion h
        · rw [if_neg hd]
          exact fun h => BulkResponse.noConfusion h
    · cases data with
      | none =>
        rw [bulk_register_none, if_neg hq]
        exact h10
      | some d =>
        rw [bulk_register_some, if_neg hq]
        by_cases hd : d = []
        · rw [if_pos hd]
          exact h10
        · rw [if_neg hd]
          obtain ⟨ext, tail, heq, hlen, -, -, -⟩ :=
            bulkLoop_spec uid d (buildAsinMap items)
              ((buildAsinMap items).map Prod.fst) s []
          rw [heq]
          show countUser (s ++ ext) uid ≤ 10
          rw [countUser_append]
          have h1 : countUser ext uid ≤ ext.length := countUser_le_length ext uid
          have h3 : ((buildAsinMap items).map Prod.fst).length =
              (buildAsinMap items).length := List.length_map _ _
          have h4 : (buildAsinMap items).length ≤ items.length :=
            length_pyDict_le _ _
          omega

/-- Witness for C2 at concrete inputs: eleven submitted items are rejected
against an empty store; an empty submission passes the check and keeps the
count at most ten. -/
theorem bulk_register_quota_spec_witness :
    bulk_register [] "u1" (List.replicate 11 ⟨"x", (1 : Rat)⟩) none =
      ([], BulkResponse.quotaError 0) ∧
    (∀ n, (bulk_register [] "u1" [] none).2 ≠ BulkResponse.quotaError n) ∧
    countUser (bulk_register [] "u1" [] none).1 "u1" ≤ 10 :=
  ⟨(bulk_register_quota_spec [] "u1" (List.replicate 11 ⟨"x", (1 : Rat)⟩)
      none).1 (by decide),
   (bulk_register_quota_spec [] "u1" [] none).2.1 (by decide),
   (bulk_register_quota_spec [] "u1" [] none).2.2 (by decide)⟩

/-- C6: the submitted items are de-duplicated into `asin_map` with
last-write-wins (the stored value for an identifier is the last submitted
occurrence of that identifier), the map's keys are distinct (so the loop
makes at most one insert attempt per identifier), and every row the
request inserts takes its `target_price` from the last submitted
occurrence of its identifier. -/
theorem bulk_register_dedup_spec (items : List RegisterItem) :
    (∀ a, dictGet (buildAsinMap items) a =
      lastWith (fun it => extract_asin it.url) a items) ∧
    ((buildAsinMap items).map Prod.fst).Nodup ∧
    (∀ s uid d, ∃ ext,
      (bulk_register s uid items (some d)).1 = s ++ ext ∧
      ∀ r ∈ ext, r.user_id = uid ∧
        ∃ it, lastWith (fun it => extract_asin it.url) r.asin items = some it ∧
          r.target_price = it.target_price) := by
  refine ⟨fun a => dictGet_pyDict _ items a, nodup_keys_pyDict _ items, ?_⟩
  intro s uid d
  rw [bulk_register_some]
  by_cases hq : countUser s uid + items.length > 10
  · rw [if_pos hq]
    exact ⟨[], by simp, by simp⟩
  · rw [if_neg hq]
    by_cases hd : d = []
    · rw [if_pos hd]
      exact ⟨[], by simp, by simp⟩
    · rw [if_neg hd]
      obtain ⟨ext, tail, heq, -, hext, -, -⟩ :=
        bulkLoop_spec uid d (buildAsinMap items)
          ((buildAsinMap items).map Prod.fst) s []
      refine ⟨ext, ?_, ?_⟩
      · rw [heq]
      · intro r hr
        obtain ⟨hu, -, gi, reg, -, hreg, hrow⟩ := hext r hr
        refine ⟨hu, reg, ?_, ?_⟩
        · rw [← dictGet_pyDict]
          exact hreg
        · exact congrArg Row.target_price hrow

/-- C9: when the quota check passes and the gateway returns a nonempty
data dictionary, the response is the normal summary; its per-item list has
exactly one entry per distinct successfully-extracted identifier (the
summary count is the number of such identifiers, not the number of
submitted items), the identifiers counted are exactly those extracted from
some submitted URL, and every per-item entry refers to an extracted
identifier — an item whose URL yields no identifier leaves no entry and no
error. -/
theorem bulk_register_omitted_spec (s : Store) (uid : String)
    (items : List RegisterItem) (d : List (String × GwItem))
    (hq : countUser s uid + items.length ≤ 10) (hd : d ≠ []) :
    ∃ res, (bulk_register s uid items (some d)).2 =
        BulkResponse.ok res.length res ∧
      res.length = ((buildAsinMap items).map Prod.fst).length ∧
      ((buildAsinMap items).map Prod.fst).Nodup ∧
      (∀ a, a ∈ (buildAsinMap items).map Prod.fst ↔
        ∃ it ∈ items, extract_asin it.url = some a) ∧
      (∀ e ∈ res, ∃ it ∈ items, extract_asin it.url = some (resultAsin e)) := by
  rw [bulk_register_some, if_neg (by omega), if_neg hd]
  obtain ⟨ext, tail, heq, -, -, htlen, htail⟩ :=
    bulkLoop_spec uid d (buildAsinMap items)
      ((buildAsinMap items).map Prod.fst) s []
  refine ⟨tail, ?_, htlen, nodup_keys_pyDict _ items, ?_, ?_⟩
  · rw [heq]
    simp
  · intro a
    exact mem_keys_pyDict _ items a
  · intro e he
    exact (mem_keys_pyDict _ items (resultAsin e)).mp (htail e he)

/-- Witness for C9: of two submitted items, one URL has no ASIN and is
silently dropped; the summary has exactly one entry (for the extracted
identifier), not two. -/
theorem bulk_register_omitted_spec_witness :
    ∃ res, (bulk_register [] "u1"
        [⟨"no-asin-here", (5 : Rat)⟩, ⟨"https://a/dp/BBBBBBBBBB", (5 : Rat)⟩]
        (some [("BBBBBBBBBB", ⟨"B", (100 : Rat), "u"⟩)])).2 =
        BulkResponse.ok res.length res ∧
      res.length = ((buildAsinMap
        [⟨"no-asin-here", (5 : Rat)⟩, ⟨"https://a/dp/BBBBBBBBBB", (5 : Rat)⟩]).map
          Prod.fst).length := by
  obtain ⟨res, h1, h2, -, -, -⟩ := bulk_register_omitted_spec [] "u1"
    [⟨"no-asin-here", (5 : Rat)⟩, ⟨"https://a/dp/BBBBBBBBBB", (5 : Rat)⟩]
    [("BBBBBBBBBB", ⟨"B", (100 : Rat), "u"⟩)] (by decide) (by decide)
  exact ⟨res, h1, h2⟩

/-- Counterexample to C5 as stated: the pair `("u1", "AAAAAAAAAA")` is
already stored (count 1) and that identifier is submitted again, but the
gateway data (nonempty) lacks the identifier, so the per-item `KeyError`
is raised before the already-registered check runs: the attempt is
reported as a per-item error, not as already registered. -/
theorem bulk_register_already_registered_counterexample :
    countPair [⟨"u1", "AAAAAAAAAA", "T", 50, "u", (100 : Rat)⟩] "u1"
      "AAAAAAAAAA" = 1 ∧
    extract_asin "https://a/dp/AAAAAAAAAA" = some "AAAAAAAAAA" ∧
    bulk_register [⟨"u1", "AAAAAAAAAA", "T", 50, "u", (100 : Rat)⟩] "u1"
      [⟨"https://a/dp/AAAAAAAAAA", (120 : Rat)⟩]
      (some [("ZZZZZZZZZZ", ⟨"Z", (10 : Rat), "zu"⟩)]) =
      ([⟨"u1", "AAAAAAAAAA", "T", 50, "u", (100 : Rat)⟩],
       BulkResponse.ok 1 [BulkItemResult.itemError "AAAAAAAAAA"]) := by
  decide

/-- C5 amended: re-registering an identifier whose `(user_id, item_id)`
row is already stored never inserts a new row nor overwrites the existing
one (the rows of the pair are exactly unchanged, so exactly one stored row
remains), and — provided the quota check passes and the gateway data is
nonempty and resolves the identifier — the attempt is reported
per-identifier as already registered (skipped), not as an error. -/
theorem bulk_register_already_registered (s : Store) (uid a : String)
    (items : List RegisterItem) (d : List (String × GwItem))
    (hex : countPair s uid a = 1) :
    pairRows (bulk_register s uid items (some d)).1 uid a =
      pairRows s uid a ∧
    countPair (bulk_register s uid items (some d)).1 uid a = 1 ∧
    (countUser s uid + items.length ≤ 10 → d ≠ [] →
      (dictGet d a).isSome = true →
      a ∈ (buildAsinMap items).map Prod.fst →
      ∃ res, (bulk_register s uid items (some d)).2 =
          BulkResponse.ok res.length res ∧
        BulkItemResult.skipped a ∈ res) := by
  have hpos : 0 < countPair s uid a := by omega
  have hrows : pairRows (bulk_register s uid items (some d)).1 uid a =
      pairRows s uid a := by
    rw [bulk_register_some]
    by_cases hq : countUser s uid + items.length > 10
    · rw [if_pos hq]
    · rw [if_neg hq]
      by_cases hd : d = []
      · rw [if_pos hd]
      · rw [if_neg hd]
        exact bulkLoop_pairRows uid a d (buildAsinMap items)
          ((buildAsinMap items).map Prod.fst) s [] hpos
  refine ⟨hrows, ?_, ?_⟩
  · unfold countPair
    rw [hrows]
    exact hex
  · intro hq hd hds hmem
    have hamap : (dictGet (buildAsinMap items) a).isSome = true := by
      rw [dictGet_isSome_iff]
      exact hmem
    rw [bulk_register_some, if_neg (by omega), if_neg hd]
    refine ⟨(bulkLoop uid d (buildAsinMap items) s []
      ((buildAsinMap items).map Prod.fst)).2, rfl, ?_⟩
    exact bulkLoop_skipped uid a d (buildAsinMap items)
      ((buildAsinMap items).map Prod.fst) s [] hpos hmem hds hamap

/-- Witness for the amended C5: with the gateway resolving the identifier,
the duplicate registration leaves the stored pair untouched and is
reported as skipped. -/
theorem bulk_register_already_registered_witness :
    pairRows (bulk_register [⟨"u1", "AAAAAAAAAA", "T", 50, "u", (100 : Rat)⟩]
        "u1" [⟨"https://a/dp/AAAAAAAAAA", (120 : Rat)⟩]
        (some [("AAAAAAAAAA", ⟨"T2", (90 : Rat), "u2"⟩)])).1 "u1"
        "AAAAAAAAAA" =
      pairRows [⟨"u1", "AAAAAAAAAA", "T", 50, "u", (100 : Rat)⟩] "u1"
        "AAAAAAAAAA" ∧
    ∃ res, (bulk_register [⟨"u1", "AAAAAAAAAA", "T", 50, "u", (100 : Rat)⟩]
        "u1" [⟨"https://a/dp/AAAAAAAAAA", (120 : Rat)⟩]
        (some [("AAAAAAAAAA", ⟨"T2", (90 : Rat), "u2"⟩)])).2 =
        BulkResponse.ok res.length res ∧
      BulkItemResult.skipped "AAAAAAAAAA" ∈ res := by
  have h := bulk_register_already_registered
    [⟨"u1", "AAAAAAAAAA", "T", 50, "u", (100 : Rat)⟩] "u1" "AAAAAAAAAA"
    [⟨"https://a/dp/AAAAAAAAAA", (120 : Rat)⟩]
    [("AAAAAAAAAA", ⟨"T2", (90 : Rat), "u2"⟩)] (by decide)
  exact ⟨h.1, h.2.2 (by decide) (by decide) (by decide) (by decide)⟩

/-! ## Lemmas about check_prices and delete_product -/

theorem filterMap_const_none {α β : Type} (l : List α) :
    l.filterMap (fun _ => (none : Option β)) = [] := by
  induction l with
  | nil => rfl
  | cons x l ih =>
    rw [List.filterMap_cons]
    simp [ih]

theorem check_prices_def (s : Store) (uid : String)
    (data : Option (List (String × GwItem))) :
    check_prices s uid data =
      if userRows s uid = [] then (s, CheckResponse.notifications [])
      else
        (s, CheckResponse.notifications
          (((userRows s uid).map Row.asin).filterMap
            (checkStep data (buildTarget (userRows s uid))))) := by
  unfold check_prices
  by_cases h : userRows s uid = []
  · rw [if_pos h, if_pos h]
  · rw [if_neg h, if_neg h,
      foldl_opt_append (checkStep data (buildTarget (userRows s uid))),
      List.nil_append]

theorem checkStep_asin (data : Option (List (String × GwItem)))
    (tmap : List (String × Row)) (a : String) (n : Notification)
    (h : checkStep data tmap a = some n) : n.asin = a := by
  cases data with
  | none => exact Option.noConfusion h
  | some d =>
    cases hg : dictGet d a with
    | none =>
      simp only [checkStep, hg] at h
      exact Option.noConfusion h
    | some gi =>
      cases ht : dictGet tmap a with
      | none =>
        simp only [checkStep, hg, ht] at h
        exact Option.noConfusion h
      | some row =>
        simp only [checkStep, hg, ht] at h
        by_cases hle : gi.amount ≤ row.target_price
        · rw [if_pos hle] at h
          injection h with h
          rw [← h]
        · rw [if_neg hle] at h
          exact Option.noConfusion h

theorem buildTarget_get (rows : List Row) (r : Row)
    (hnd : (rows.map Row.asin).Nodup) (hr : r ∈ rows) :
    dictGet (buildTarget rows) r.asin = some r := by
  unfold buildTarget
  rw [dictGet_pyDict]
  exact lastWith_of_nodup Row.asin rows r hnd hr

/-- C1 amended: when the gateway response has no `"data"` container, every
per-item lookup in `check_prices` raises, is caught by the per-item
handler, and is skipped, so the endpoint returns the normal (empty)
notification list — not a gateway-error object (the active revision has no
`"data" not in products` check). -/
theorem check_prices_no_data (s : Store) (uid : String) :
    (check_prices s uid none).2 = CheckResponse.notifications [] := by
  rw [check_prices_def]
  by_cases h : userRows s uid = []
  · rw [if_pos h]
  · rw [if_neg h]
    have hf : checkStep none (buildTarget (userRows s uid)) =
        fun _ => (none : Option Notification) := funext fun _ => rfl
    rw [hf, filterMap_const_none]

/-- Counterexample to C1 as stated: user `u1` holds one watched item, the
gateway response has no data container (`none`), yet the operation returns
the normal notification list `notifications []`, not an error object. -/
theorem check_prices_no_data_counterexample :
    userRows [⟨"u1", "B000000000", "T", 50, "u", (100 : Rat)⟩] "u1" ≠ [] ∧
    (check_prices [⟨"u1", "B000000000", "T", 50, "u", (100 : Rat)⟩] "u1"
      none).2 = CheckResponse.notifications [] ∧
    (check_prices [⟨"u1", "B000000000", "T", 50, "u", (100 : Rat)⟩] "u1"
      none).2 ≠ CheckResponse.gatewayError := by
  decide

/-- C3: for a watched row of the user (the user's ASINs being distinct, as
the uniqueness invariant guarantees) whose identifier the gateway data
resolves, the notification record built from the row and the live gateway
price is emitted if and only if the live price is less than or equal to
the stored target price — boundary inclusive, since the comparison is
`≤`. -/
theorem check_prices_notification_iff (s : Store) (uid : String)
    (d : List (String × GwItem)) (r : Row) (gi : GwItem)
    (hnd : ((userRows s uid).map Row.asin).Nodup)
    (hr : r ∈ userRows s uid)
    (hgi : dictGet d r.asin = some gi) :
    ((⟨r.asin, r.title, gi.amount, r.target_price, r.url⟩ : Notification) ∈
        responseNotifs (check_prices s uid (some d)).2 ↔
      gi.amount ≤ r.target_price) := by
  have hne : userRows s uid ≠ [] := by
    intro h
    rw [h] at hr
    exact List.not_mem_nil r hr
  rw [check_prices_def, if_neg hne]
  show (⟨r.asin, r.title, gi.amount, r.target_price, r.url⟩ : Notification) ∈
      ((userRows s uid).map Row.asin).filterMap
        (checkStep (some d) (buildTarget (userRows s uid))) ↔ _
  rw [List.mem_filterMap]
  have htm : dictGet (buildTarget (userRows s uid)) r.asin = some r :=
    buildTarget_get _ r hnd hr
  constructor
  · rintro ⟨a, ha, hstep⟩
    have hasin : (⟨r.asin, r.title, gi.amount, r.target_price, r.url⟩ :
        Notification).asin = a := checkStep_asin _ _ _ _ hstep
    have ha2 : a = r.asin := hasin.symm
    subst ha2
    simp only [checkStep, hgi, htm] at hstep
    by_cases hle : gi.amount ≤ r.target_price
    · exact hle
    · rw [if_neg hle] at hstep
      exact Option.noConfusion hstep
  · intro hle
    refine ⟨r.asin, List.mem_map_of_mem Row.asin hr, ?_⟩
    simp only [checkStep, hgi, htm]
    rw [if_pos hle]

/-- Witness for C3 at the boundary: live price 100 equals the target 100
and the notification is emitted. -/
theorem check_prices_notification_iff_witness :
    ((⟨"AAABBBCCC1", "T", (100 : Rat), (100 : Rat), "u"⟩ : Notification) ∈
        responseNotifs (check_prices
          [⟨"u1", "AAABBBCCC1", "T", 60, "u", (100 : Rat)⟩] "u1"
          (some [("AAABBBCCC1", ⟨"T", (100 : Rat), "u2"⟩)])).2 ↔
      (100 : Rat) ≤ (100 : Rat)) :=
  check_prices_notification_iff
    [⟨"u1", "AAABBBCCC1", "T", 60, "u", (100 : Rat)⟩] "u1"
    [("AAABBBCCC1", ⟨"T", (100 : Rat), "u2"⟩)]
    ⟨"u1", "AAABBBCCC1", "T", 60, "u", (100 : Rat)⟩
    ⟨"T", (100 : Rat), "u2"⟩ (by decide) (by decide) (by decide)

/-- Changing only the stored `price` field of a row. -/
def withPrice (f : Row → Int) (r : Row) : Row :=
  { r with price := f r }

theorem userRows_map_withPrice (s : Store) (uid : String) (f : Row → Int) :
    userRows (s.map (withPrice f)) uid = (userRows s uid).map (withPrice f) := by
  unfold userRows
  induction s with
  | nil => rfl
  | cons r s ih =>
    rw [List.map_cons, List.filter_cons, List.filter_cons]
    have hp : ((withPrice f r).user_id == uid) = (r.user_id == uid) := rfl
    rw [hp]
    by_cases h : (r.user_id == uid) = true
    · rw [if_pos h, if_pos h, List.map_cons, ih]
    · rw [if_neg h, if_neg h, ih]

theorem lastWith_asin_map (rows : List Row) (f : Row → Int) (a : String) :
    lastWith (fun r => some r.asin) a (rows.map (withPrice f)) =
      Option.map (withPrice f) (lastWith (fun r => some r.asin) a rows) := by
  induction rows with
  | nil => rfl
  | cons r rows ih =>
    simp only [List.map_cons, lastWith]
    rw [ih]
    cases hl : lastWith (fun r => some r.asin) a rows with
    | some y => rfl
    | none =>
      show (if some r.asin = some a then some (withPrice f r) else none) =
        Option.map (withPrice f)
          (if some r.asin = some a then some r else none)
      by_cases h : some r.asin = some a
      · rw [if_pos h, if_pos h]
        rfl
      · rw [if_neg h, if_neg h]
        rfl

theorem dictGet_buildTarget_map (rows : List Row) (f : Row → Int)
    (a : String) :
    dictGet (buildTarget (rows.map (withPrice f))) a =
      Option.map (withPrice f) (dictGet (buildTarget rows) a) := by
  unfold buildTarget
  rw [dictGet_pyDict, dictGet_pyDict, lastWith_asin_map]

theorem checkStep_map_withPrice (data : Option (List (String × GwItem)))
    (rows : List Row) (f : Row → Int) (a : String) :
    checkStep data (buildTarget (rows.map (withPrice f))) a =
      checkStep data (buildTarget rows) a := by
  cases data with
  | none => rfl
  | some d =>
    cases hg : dictGet d a with
    | none => simp only [checkStep, hg]
    | some gi =>
      simp only [checkStep, hg, dictGet_buildTarget_map]
      cases ht : dictGet (buildTarget rows) a with
      | none => rfl
      | some row => rfl

/-- C7: `check_prices` leaves the stored rows completely unchanged (first
conjunct), and the stored `price` field is never consulted: replacing that
field in every row by anything at all leaves the response identical
(second conjunct). -/
theorem check_prices_frame (s : Store) (uid : String)
    (data : Option (List (String × GwItem))) :
    (check_prices s uid data).1 = s ∧
    ∀ f : Row → Int,
      (check_prices (s.map (withPrice f)) uid data).2 =
        (check_prices s uid data).2 := by
  constructor
  · rw [check_prices_def]
    by_cases h : userRows s uid = []
    · rw [if_pos h]
    · rw [if_neg h]
  · intro f
    rw [check_prices_def, check_prices_def, userRows_map_withPrice]
    by_cases h : userRows s uid = []
    · rw [h]
      simp
    · have h2 : (userRows s uid).map (withPrice f) ≠ [] :=
        fun hc => h (List.map_eq_nil_iff.mp hc)
      rw [if_neg h2, if_neg h]
      have hcomp : Row.asin ∘ withPrice f = Row.asin := rfl
      have hstep : checkStep data
          (buildTarget ((userRows s uid).map (withPrice f))) =
          checkStep data (buildTarget (userRows s uid)) :=
        funext fun a => checkStep_map_withPrice data (userRows s uid) f a
      rw [List.map_map, hcomp, hstep]

theorem filter_keep_of_countPair_zero (l : Store) (uid a : String)
    (hl : countPair l uid a = 0) :
    l.filter (fun r => !(r.user_id == uid && r.asin == a)) = l := by
  induction l with
  | nil => rfl
  | cons x l ih =>
    have hx : (x.user_id == uid && x.asin == a) = false := by
      cases hxc : (x.user_id == uid && x.asin == a)
      · rfl
      · exfalso
        unfold countPair pairRows at hl
        rw [List.filter_cons, if_pos hxc, List.length_cons] at hl
        omega
    have hx' : ¬((x.user_id == uid && x.asin == a) = true) := by
      rw [hx]
      exact Bool.false_ne_true
    have hl2 : countPair l uid a = 0 := by
      unfold countPair pairRows at hl ⊢
      rw [List.filter_cons, if_neg hx'] at hl
      exact hl
    rw [List.filter_cons, if_pos (by simp [hx]), ih hl2]

/-- C8: deleting an absent `(user_id, asin)` pair signals not-found and
leaves the store unchanged; deleting a pair stored in exactly one row
removes exactly that row and leaves every other row (before and after it,
of this user or of others) in place. -/
theorem delete_product_spec (s : Store) (uid a : String) :
    (countPair s uid a = 0 →
      delete_product s uid a = (s, DeleteResponse.notFound)) ∧
    (∀ l1 r l2, s = l1 ++ r :: l2 → r.user_id = uid → r.asin = a →
      countPair s uid a = 1 →
      delete_product s uid a = (l1 ++ l2, DeleteResponse.deleted)) := by
  constructor
  · intro h
    unfold delete_product
    rw [if_pos h]
  · intro l1 r l2 hs hu ha hcount
    subst hs
    unfold delete_product
    rw [if_neg (by omega)]
    have hr : (r.user_id == uid && r.asin == a) = true := by
      rw [hu, ha]
      simp
    have hlen1 : (pairRows (r :: l2) uid a).length =
        (pairRows l2 uid a).length + 1 := by
      unfold pairRows
      rw [List.filter_cons, if_pos hr, List.length_cons]
    have hsplit : countPair (l1 ++ r :: l2) uid a =
        countPair l1 uid a + (pairRows (r :: l2) uid a).length := by
      unfold countPair
      rw [pairRows_append, List.length_append]
    have hc1 : countPair l1 uid a = 0 := by omega
    have hc2 : countPair l2 uid a = 0 := by
      unfold countPair
      omega
    have hrneg : ¬((!(r.user_id == uid && r.asin == a)) = true) := by
      rw [hr]
      decide
    have hfilter : (l1 ++ r :: l2).filter
        (fun r2 => !(r2.user_id == uid && r2.asin == a)) = l1 ++ l2 := by
      rw [List.filter_append, List.filter_cons, if_neg hrneg,
        filter_keep_of_countPair_zero l1 uid a hc1,
        filter_keep_of_countPair_zero l2 uid a hc2]
    rw [hfilter]

/-- Witness for C8: deleting a missing pair of a two-row store signals
not-found; deleting the second row removes exactly it and keeps the
first. -/
theorem delete_product_spec_witness :
    delete_product [⟨"u1", "A1", "t", 1, "x", (5 : Rat)⟩,
        ⟨"u1", "B2", "t", 2, "y", (6 : Rat)⟩] "u1" "ZZ" =
      ([⟨"u1", "A1", "t", 1, "x", (5 : Rat)⟩,
        ⟨"u1", "B2", "t", 2, "y", (6 : Rat)⟩], DeleteResponse.notFound) ∧
    delete_product [⟨"u1", "A1", "t", 1, "x", (5 : Rat)⟩,
        ⟨"u1", "B2", "t", 2, "y", (6 : Rat)⟩] "u1" "B2" =
      ([⟨"u1", "A1", "t", 1, "x", (5 : Rat)⟩], DeleteResponse.deleted) :=
  ⟨(delete_product_spec [⟨"u1", "A1", "t", 1, "x", (5 : Rat)⟩,
      ⟨"u1", "B2", "t", 2, "y", (6 : Rat)⟩] "u1" "ZZ").1 (by decide),
   (delete_product_spec [⟨"u1", "A1", "t", 1, "x", (5 : Rat)⟩,
      ⟨"u1", "B2", "t", 2, "y", (6 : Rat)⟩] "u1" "B2").2
     [⟨"u1", "A1", "t", 1, "x", (5 : Rat)⟩]
     ⟨"u1", "B2", "t", 2, "y", (6 : Rat)⟩ [] rfl rfl rfl (by decide)⟩

example : extract_asin "https://www.amazon.co.jp/dp/B000000000?x=1" = some "B000000000" := by decide
example : extract_asin "https://www.amazon.co.jp/gp/product/B0C1D2E3F4" = some "B0C1D2E3F4" := by decide
example : extract_asin "https://www.amazon.co.jp/dp/b000000000" = none := by decide
example : extract_asin "https://a/dp/ABCDEFGHIJK" = some "ABCDEFGHIJ" := by decide
example : extract_asin "" = none := by decide
example : delete_product [⟨"u", "A", "t", 1, "x", 5⟩] "u" "B" = ([⟨"u", "A", "t", 1, "x", 5⟩], .notFound) := by decide
